import Mathlib

/-!
# Verification of the cosmos_exporter collection pipeline

A shallow embedding of `exporter.go` (package `main`): the data model for
the two JSON endpoints, the `Scrape`/`Collect` control flow, the
`strconv.ParseFloat` conversions and the `time.Parse`/`Unix` timestamp
handling, together with theorems checking the specification's claims.

Conventions of the embedding:
* Machine floating point (`float64`) values are represented exactly: a
  finite `float64` is a dyadic rational `m * 2^e`, kept in the canonical
  form produced by `norm2` (nonnegative exponents folded away, factors of
  two stripped from the mantissa while the exponent is negative).
* `strconv.ParseFloat` on decimal input is modelled by an exact decimal
  parse (`mant * 10^exp10`) followed by round-to-nearest-even at 53 bits
  of precision with IEEE-754 binary64 overflow and subnormal thresholds.
* The remote HTTP endpoints are abstracted as values of `HTTPResult`:
  either a transport-level failure, a body-read failure, or a response
  carrying a status code and a body.  JSON decoding (the external
  `encoding/json` collaborator) is abstracted by giving the body either
  as `undecodable` or as the decoded record.
* `int64` wrap-around on the one subtraction the Go code performs is made
  explicit by `wrap64`.
-/

set_option maxRecDepth 20000
set_option exponentiation.threshold 5000

/-- Fuel-driven binary logarithm: `log2fuel f n` is `⌊log₂ n⌋` whenever
`n ≤ f` and `1 ≤ n`.  Written with explicit fuel so that it is structural
and kernel-computable. -/
def log2fuel : ℕ → ℕ → ℕ
  | 0, _ => 0
  | f + 1, n => if 2 ≤ n then log2fuel f (n / 2) + 1 else 0

/-- `⌊log₂ n⌋` for `n ≥ 1` (and `0` at `0`). -/
def natLog2 (n : ℕ) : ℕ := log2fuel n n

theorem log2fuel_spec : ∀ f n, n ≤ f → 1 ≤ n →
    2 ^ log2fuel f n ≤ n ∧ n < 2 ^ (log2fuel f n + 1) := by
  intro f
  induction f with
  | zero => intro n h1 h2; omega
  | succ f ih =>
    intro n hn h1
    simp only [log2fuel]
    split
    · next h2 =>
      have hd : n / 2 ≤ f := by omega
      have h12 : 1 ≤ n / 2 := by omega
      obtain ⟨a, b⟩ := ih (n / 2) hd h12
      have hp : (2 : ℕ) ^ (log2fuel f (n / 2) + 1) = 2 * 2 ^ log2fuel f (n / 2) := by ring
      have hp2 : (2 : ℕ) ^ (log2fuel f (n / 2) + 1 + 1) = 2 * 2 ^ (log2fuel f (n / 2) + 1) := by
        ring
      constructor
      · omega
      · omega
    · next h2 =>
      have hn1 : n = 1 := by omega
      subst hn1
      simp

theorem natLog2_le (n : ℕ) (h : 1 ≤ n) : 2 ^ natLog2 n ≤ n :=
  (log2fuel_spec n n le_rfl h).1

theorem natLog2_lt (n : ℕ) (h : 1 ≤ n) : n < 2 ^ (natLog2 n + 1) :=
  (log2fuel_spec n n le_rfl h).2

theorem natLog2_one : natLog2 1 = 0 := rfl

/-- A Go `float64` value, represented exactly.  `finite m e` stands for
the real number `m * 2^e`; values built by this development are kept in
the canonical form produced by `norm2`. -/
inductive GoFloat where
  | finite (mant : ℤ) (exp2 : ℤ)
  | inf (neg : Bool)
  | nan
deriving DecidableEq, Repr

/-- Strip factors of two while the exponent is negative (fuel-driven). -/
def norm2fuel : ℕ → ℤ → ℤ → GoFloat
  | 0, M, E => .finite M E
  | f + 1, M, E =>
    if 0 ≤ E then .finite (M * 2 ^ E.toNat) 0
    else if M % 2 = 0 then norm2fuel f (M / 2) (E + 1)
    else .finite M E

/-- Canonical form of the dyadic value `M * 2^E`: a nonnegative exponent
is folded into the mantissa; for a negative exponent, factors of two are
moved from the mantissa into the exponent as far as possible. -/
def norm2 (M E : ℤ) : GoFloat :=
  if 0 ≤ E then .finite (M * 2 ^ E.toNat) 0 else norm2fuel (-E).toNat M E

theorem norm2fuel_intval : ∀ t (n : ℤ), norm2fuel t (n * 2 ^ t) (-(t : ℤ)) = .finite n 0 := by
  intro t
  induction t with
  | zero => intro n; simp [norm2fuel]
  | succ t ih =>
    intro n
    have hneg : ¬ (0 : ℤ) ≤ -((t : ℤ) + 1) := by omega
    have hmod : (n * 2 ^ (t + 1)) % 2 = 0 := by
      have : n * 2 ^ (t + 1) = n * 2 ^ t * 2 := by ring
      omega
    have hdiv : n * 2 ^ (t + 1) / 2 = n * 2 ^ t := by
      have h2 : n * 2 ^ (t + 1) = n * 2 ^ t * 2 := by ring
      rw [h2]
      exact Int.mul_ediv_cancel _ (by norm_num)
    have hE : (-(((t : ℕ) + 1 : ℕ) : ℤ) + 1) = -(t : ℤ) := by push_cast; ring
    simp only [norm2fuel, Nat.cast_add, Nat.cast_one, hneg, if_false, hmod, if_pos, hdiv,
      if_true]
    rw [show (-((t : ℤ) + 1) + 1) = -(t : ℤ) by ring]
    exact ih n

theorem norm2_intval (n : ℤ) (t : ℕ) : norm2 (n * 2 ^ t) (-(t : ℤ)) = .finite n 0 := by
  rcases Nat.eq_zero_or_pos t with h | h
  · subst h; simp [norm2]
  · have hneg : ¬ (0 : ℤ) ≤ -(t : ℤ) := by omega
    have ht' : (-(-(t : ℤ))).toNat = t := by omega
    simp only [norm2, hneg, if_false, ht']
    exact norm2fuel_intval t n

theorem norm2_nonneg (M E : ℤ) (h : 0 ≤ E) : norm2 M E = .finite (M * 2 ^ E.toNat) 0 := by
  simp [norm2, h]

/-- An exact decimal value `mant * 10^exp10`, the output of the decimal
scan inside `strconv.ParseFloat`. -/
structure Dec where
  mant : ℤ
  exp10 : ℤ
deriving DecidableEq, Repr

/-- Numerator/denominator pair for the positive rational `a * 10^s`. -/
def decFrac (a : ℕ) (s : ℤ) : ℕ × ℕ :=
  if 0 ≤ s then (a * 10 ^ s.toNat, 1) else (a, 10 ^ (-s).toNat)

/-- Does `2^c ≤ N / D` hold (for the exact rational `N / D`)? -/
def le2pow (c : ℤ) (N D : ℕ) : Bool :=
  if 0 ≤ c then decide (2 ^ c.toNat * D ≤ N) else decide (D ≤ 2 ^ (-c).toNat * N)

/-- Round the positive rational `N / D` to 53 significant bits
(round-to-nearest, ties to even): returns the rounded mantissa, the binary
exponent of its unit in the last place, and the binary64 overflow flag. -/
def f64RoundPos (N D : ℕ) : ℕ × ℤ × Bool :=
  let c : ℤ := (natLog2 N : ℤ) - (natLog2 D : ℤ)
  let L : ℤ := if le2pow c N D then c else c - 1
  let e : ℤ := max (L - 52) (-1074)
  let N' : ℕ := if 0 ≤ e then N else N * 2 ^ (-e).toNat
  let D' : ℕ := if 0 ≤ e then D * 2 ^ e.toNat else D
  let m : ℕ := N' / D'
  let r : ℕ := N' % D'
  let M : ℕ :=
    if 2 * r < D' then m else if D' < 2 * r then m + 1 else if m % 2 = 0 then m else m + 1
  let over : Bool :=
    if 0 ≤ e then decide (2 ^ 1024 ≤ M * 2 ^ e.toNat) else decide (2 ^ (1024 + (-e).toNat) ≤ M)
  (M, e, over)

/-- Round an exact decimal value to the nearest `float64`
(round-to-nearest, ties to even, binary64 overflow to `±Inf`). -/
def f64RoundDec (d : Dec) : GoFloat :=
  if d.mant = 0 then .finite 0 0
  else
    let a : ℕ := d.mant.natAbs
    let ND := decFrac a d.exp10
    let Meo := f64RoundPos ND.1 ND.2
    if Meo.2.2 then .inf (decide (d.mant < 0))
    else norm2 (if d.mant < 0 then -(Meo.1 : ℤ) else (Meo.1 : ℤ)) Meo.2.1

theorem f64RoundPos_int (a mN k : ℕ) (ha : 1 ≤ a) (hm : mN ≤ 2 ^ 53)
    (heq : a = mN * 2 ^ k) (hlt : a < 2 ^ 1024) :
    ∃ M e, f64RoundPos a 1 = (M, e, false)
      ∧ norm2 (M : ℤ) e = .finite (a : ℤ) 0
      ∧ norm2 (-(M : ℤ)) e = .finite (-(a : ℤ)) 0 := by
  have hLle : 2 ^ natLog2 a ≤ a := natLog2_le a ha
  have hLlt : a < 2 ^ (natLog2 a + 1) := natLog2_lt a ha
  have hc : ((natLog2 a : ℤ) - (natLog2 1 : ℤ)) = (natLog2 a : ℤ) := by
    simp [natLog2_one]
  have hle2 : le2pow ((natLog2 a : ℤ)) a 1 = true := by
    simp only [le2pow, Int.toNat_natCast, mul_one, decide_eq_true_eq]
    rw [if_pos (by positivity)]
    simpa using hLle
  have hmax : max ((natLog2 a : ℤ) - 52) (-1074) = (natLog2 a : ℤ) - 52 := by omega
  simp only [f64RoundPos, hc, hle2, if_true, hmax]
  rcases lt_trichotomy (natLog2 a) 52 with h52 | h52 | h52
  · -- binary exponent below 52: scale the integer up, exact division by 1
    have hneg : ¬ (0 : ℤ) ≤ (natLog2 a : ℤ) - 52 := by omega
    have ht : ((-(((natLog2 a : ℤ)) - 52)).toNat) = 52 - natLog2 a := by omega
    simp only [hneg, if_false, ht]
    refine ⟨a * 2 ^ (52 - natLog2 a), (natLog2 a : ℤ) - 52, ?_, ?_, ?_⟩
    · have hdiv : a * 2 ^ (52 - natLog2 a) / 1 = a * 2 ^ (52 - natLog2 a) := Nat.div_one _
      have hmod : a * 2 ^ (52 - natLog2 a) % 1 = 0 := Nat.mod_one _
      have hover : ¬ 2 ^ (1024 + (52 - natLog2 a)) ≤ a * 2 ^ (52 - natLog2 a) := by
        rw [pow_add]
        intro hcon
        exact absurd (Nat.le_of_mul_le_mul_right hcon (by positivity)) (by omega)
      simp [hdiv, hmod, hover]
    · have he : (natLog2 a : ℤ) - 52 = -((52 - natLog2 a : ℕ) : ℤ) := by omega
      rw [he, show ((a * 2 ^ (52 - natLog2 a) : ℕ) : ℤ) = (a : ℤ) * 2 ^ (52 - natLog2 a) by
        push_cast; ring]
      exact norm2_intval (a : ℤ) (52 - natLog2 a)
    · have he : (natLog2 a : ℤ) - 52 = -((52 - natLog2 a : ℕ) : ℤ) := by omega
      rw [he, show (-((a * 2 ^ (52 - natLog2 a) : ℕ) : ℤ)) = (-(a : ℤ)) * 2 ^ (52 - natLog2 a) by
        push_cast; ring]
      exact norm2_intval (-(a : ℤ)) (52 - natLog2 a)
  · -- binary exponent exactly 52: unit in the last place is 1
    have hpos : (0 : ℤ) ≤ (natLog2 a : ℤ) - 52 := by omega
    have ht : (((natLog2 a : ℤ)) - 52).toNat = 0 := by omega
    simp only [hpos, if_true, ht, pow_zero, one_mul, mul_one, Nat.div_one, Nat.mod_one]
    refine ⟨a, (natLog2 a : ℤ) - 52, ?_, ?_, ?_⟩
    · have hover : ¬ 2 ^ 1024 ≤ a := by omega
      rw [if_pos (by norm_num : 2 * 0 < 1), decide_eq_false hover]
    · rw [norm2_nonneg _ _ hpos, ht]
      norm_num
    · rw [norm2_nonneg _ _ hpos, ht]
      norm_num
  · -- binary exponent above 52: the low bits are zero, division is exact
    have hpos : (0 : ℤ) ≤ (natLog2 a : ℤ) - 52 := by omega
    have ht : (((natLog2 a : ℤ)) - 52).toNat = natLog2 a - 52 := by omega
    have hak : a ≤ 2 ^ (53 + k) := by
      rw [pow_add, heq]
      exact Nat.mul_le_mul_right _ hm
    have hLk : natLog2 a ≤ 53 + k := by
      have := le_trans hLle hak
      exact (Nat.pow_le_pow_iff_right (by norm_num)).mp this
    have hdvd : 2 ^ (natLog2 a - 52) ∣ a := by
      rcases le_or_lt (natLog2 a - 52) k with htk | htk
      · have h2k : (2 : ℕ) ^ k ∣ a := ⟨mN, by rw [heq]; ring⟩
        exact dvd_trans (pow_dvd_pow 2 htk) h2k
      · have hL53 : natLog2 a = 53 + k := by omega
        have haeq : a = 2 ^ (53 + k) := by
          have h2 := hLle
          rw [hL53] at h2
          omega
        have ht2 : natLog2 a - 52 = k + 1 := by omega
        rw [ht2, haeq]
        exact pow_dvd_pow 2 (by omega)
    simp only [hpos, if_true, ht, one_mul]
    have hmod : a % 2 ^ (natLog2 a - 52) = 0 := by
      obtain ⟨c, hc⟩ := hdvd
      nth_rewrite 1 [hc]
      exact Nat.mul_mod_right _ _
    have hcancel : a / 2 ^ (natLog2 a - 52) * 2 ^ (natLog2 a - 52) = a :=
      Nat.div_mul_cancel hdvd
    refine ⟨a / 2 ^ (natLog2 a - 52), (natLog2 a : ℤ) - 52, ?_, ?_, ?_⟩
    · rw [hmod]
      have hc2 : 2 * 0 < 2 ^ (natLog2 a - 52) := by positivity
      rw [if_pos hc2, hcancel]
      have hov : ¬ 2 ^ 1024 ≤ a := by omega
      rw [decide_eq_false hov]
    · rw [norm2_nonneg _ _ hpos, ht]
      rw [show ((a / 2 ^ (natLog2 a - 52) : ℕ) : ℤ) * 2 ^ (natLog2 a - 52)
          = ((a / 2 ^ (natLog2 a - 52) * 2 ^ (natLog2 a - 52) : ℕ) : ℤ) by push_cast; ring,
        hcancel]
    · rw [norm2_nonneg _ _ hpos, ht]
      rw [show (-((a / 2 ^ (natLog2 a - 52) : ℕ) : ℤ)) * 2 ^ (natLog2 a - 52)
          = -(((a / 2 ^ (natLog2 a - 52) * 2 ^ (natLog2 a - 52) : ℕ) : ℤ)) by push_cast; ring,
        hcancel]

/-- An integer exactly representable as a `float64`: at most 53
significant bits and below the binary64 overflow threshold. -/
def ReprInt (n : ℤ) : Prop :=
  ∃ m : ℤ, ∃ k : ℕ, |m| ≤ 2 ^ 53 ∧ n = m * 2 ^ k ∧ |n| < 2 ^ 1024

theorem f64RoundDec_int (n : ℤ) (h : ReprInt n) : f64RoundDec ⟨n, 0⟩ = .finite n 0 := by
  obtain ⟨m, k, hm, heq, hlt⟩ := h
  rcases eq_or_ne n 0 with h0 | h0
  · subst h0; simp [f64RoundDec]
  · have hfrac : decFrac n.natAbs 0 = (n.natAbs, 1) := by
      simp [decFrac]
    have hm' : m.natAbs ≤ 2 ^ 53 := by
      rw [Int.abs_eq_natAbs] at hm
      omega
    have heq' : n.natAbs = m.natAbs * 2 ^ k := by
      rw [heq, Int.natAbs_mul, Int.natAbs_pow]
      rfl
    have hlt' : n.natAbs < 2 ^ 1024 := by
      rw [Int.abs_eq_natAbs] at hlt
      omega
    have ha : 1 ≤ n.natAbs := by omega
    obtain ⟨M, e, hfp, hposv, hnegv⟩ := f64RoundPos_int n.natAbs m.natAbs k ha hm' heq' hlt'
    rw [show f64RoundDec ⟨n, 0⟩
        = norm2 (if n < 0 then -(M : ℤ) else (M : ℤ)) e by
      simp only [f64RoundDec, h0, if_neg h0, hfrac, hfp]
      rfl]
    rcases lt_or_le n 0 with hn | hn
    · rw [if_pos hn, hnegv]
      congr 1
      omega
    · rw [if_neg (not_lt.mpr hn), hposv]
      congr 1
      omega

/-- Is `c` an ASCII decimal digit? -/
def isDig (c : Char) : Bool := decide (48 ≤ c.toNat) && decide (c.toNat ≤ 57)

/-- Numeric value of an ASCII digit. -/
def digitVal (c : Char) : ℕ := c.toNat - 48

/-- Value of a big-endian ASCII digit string. -/
def natOfDigits (ds : List Char) : ℕ := ds.foldl (fun acc c => 10 * acc + digitVal c) 0

/-- ASCII lower-casing, as Go's `lower` does inside `strconv`. -/
def lowerC (c : Char) : Char :=
  if 65 ≤ c.toNat ∧ c.toNat ≤ 90 then Char.ofNat (c.toNat + 32) else c

/-- Split an optional leading sign off a character list, returning the
sign as `1` or `-1`. -/
def signSplit (cs : List Char) : ℤ × List Char :=
  match cs with
  | [] => (1, [])
  | c :: t => if c = '+' then (1, t) else if c = '-' then (-1, t) else (1, c :: t)

/-- Helper for `parseSpecial`: match the rest against `inf`/`infinity`. -/
def specialTail (neg : Bool) (r : List Char) : Option GoFloat :=
  if r = ['i', 'n', 'f'] ∨ r = ['i', 'n', 'f', 'i', 'n', 'i', 't', 'y'] then
    some (GoFloat.inf neg)
  else none

/-- The special forms accepted by `strconv.ParseFloat`: case-insensitive
`inf` / `infinity` with optional sign, and unsigned `nan`. -/
def parseSpecial (cs : List Char) : Option GoFloat :=
  let l := cs.map lowerC
  if l = ['n', 'a', 'n'] then some GoFloat.nan
  else
    match l with
    | [] => none
    | c :: t =>
      if c = '+' then specialTail false t
      else if c = '-' then specialTail true t
      else specialTail false (c :: t)

/-- The decimal-number grammar accepted by `strconv.ParseFloat`
(optional sign, integer digits, optional fraction, optional signed
decimal exponent), returning the exact decimal value scanned.  Go's
hexadecimal-float form and digit-group underscores are not modelled;
none of the strings this development evaluates use them. -/
def parseDecSyntax (cs : List Char) : Option Dec :=
  let sgr := signSplit cs
  let ip := sgr.2.takeWhile isDig
  let rest1 := sgr.2.dropWhile isDig
  let fr : List Char × List Char :=
    match rest1 with
    | [] => ([], [])
    | c :: t => if c = '.' then (t.takeWhile isDig, t.dropWhile isDig) else ([], c :: t)
  if ip = [] ∧ fr.1 = [] then none
  else
    let mant : ℤ := sgr.1 * ((natOfDigits ip * 10 ^ fr.1.length + natOfDigits fr.1 : ℕ) : ℤ)
    let s0 : ℤ := -(fr.1.length : ℤ)
    match fr.2 with
    | [] => some ⟨mant, s0⟩
    | c :: r =>
      if c = 'e' ∨ c = 'E' then
        let esr := signSplit r
        let ed := esr.2.takeWhile isDig
        if ed = [] ∨ esr.2.dropWhile isDig ≠ [] then none
        else some ⟨mant, s0 + esr.1 * (natOfDigits ed : ℕ)⟩
      else none

/-- The `float64` value returned by `strconv.ParseFloat(s, 64)` when the
scan succeeds (syntactically, including out-of-range inputs, for which Go
reports an error but still returns `±Inf` or `0`), `none` on a syntax
error. -/
def goParseFloatOpt (s : String) : Option GoFloat :=
  match parseSpecial s.toList with
  | some v => some v
  | none => (parseDecSyntax s.toList).map f64RoundDec

/-- The value the Go code actually uses: `Collect` discards the error
from `strconv.ParseFloat`, and on a syntax error Go returns `0`. -/
def goParseFloat (s : String) : GoFloat := (goParseFloatOpt s).getD (.finite 0 0)

/-- `s` is an optionally-signed decimal integer numeral with value `n`. -/
def decIntValue (s : String) : Option ℤ :=
  let sgr := signSplit s.toList
  let ds := sgr.2.takeWhile isDig
  if ds = [] ∨ sgr.2.dropWhile isDig ≠ [] then none
  else some (sgr.1 * (natOfDigits ds : ℕ))

/-- Consume one expected character. -/
def expectC (cs : List Char) (c : Char) : Option (List Char) :=
  match cs with
  | [] => none
  | d :: t => if d = c then some t else none

/-- Consume exactly two ASCII digits. -/
def take2 (cs : List Char) : Option (ℕ × List Char) :=
  match cs with
  | a :: b :: t => if isDig a ∧ isDig b then some (10 * digitVal a + digitVal b, t) else none
  | _ => none

/-- Consume exactly four ASCII digits. -/
def take4 (cs : List Char) : Option (ℕ × List Char) :=
  match cs with
  | a :: b :: c :: d :: t =>
    if isDig a ∧ isDig b ∧ isDig c ∧ isDig d then
      some (1000 * digitVal a + 100 * digitVal b + 10 * digitVal c + digitVal d, t)
    else none
  | _ => none

/-- Gregorian leap-year rule, as Go's `time.isLeap`. -/
def isLeap (y : ℕ) : Bool := y % 4 == 0 && (y % 100 != 0 || y % 400 == 0)

/-- Length of a month, as Go's `time.daysIn`. -/
def daysInMonth (y mo : ℕ) : ℕ :=
  if mo = 2 then (if isLeap y then 29 else 28)
  else if mo = 4 ∨ mo = 6 ∨ mo = 9 ∨ mo = 11 then 30 else 31

/-- Days from the Unix epoch to civil date `y-mo-d` (proleptic Gregorian
calendar); the standard era-based conversion, arranged so every division
has a nonnegative dividend. -/
def daysFromCivil (y mo d : ℤ) : ℤ :=
  let y2 := (if mo ≤ 2 then y - 1 else y) + 400
  let era := y2 / 400
  let yoe := y2 - era * 400
  let mp := (mo + 9) % 12
  let doy := (153 * mp + 2) / 5 + d - 1
  let doe := yoe * 365 + yoe / 4 - yoe / 100 + doy
  era * 146097 + doe - 719468 - 146097

/-- Skip an optional fractional-second part: a period followed by one to
nine digits (Go errors out on ten or more). -/
def skipFrac (cs : List Char) : Option (List Char) :=
  match cs with
  | [] => some []
  | c :: t =>
    if c = '.' then
      let fd := t.takeWhile isDig
      if 1 ≤ fd.length ∧ fd.length ≤ 9 then some (t.dropWhile isDig) else none
    else some (c :: t)

/-- Parse the zone suffix of the `Z07:00` layout element: `Z` for UTC or
a numeric `±hh:mm` offset, in seconds; must end the input. -/
def parseOffset (cs : List Char) : Option ℤ :=
  match cs with
  | [] => none
  | c :: t =>
    if c = 'Z' then (if t = [] then some 0 else none)
    else if c = '+' ∨ c = '-' then
      match take2 t with
      | none => none
      | some (hh, t2) =>
        match expectC t2 ':' with
        | none => none
        | some t3 =>
          match take2 t3 with
          | none => none
          | some (mm, t4) =>
            if t4 = [] ∧ hh ≤ 23 ∧ mm ≤ 59 then
              some ((if c = '-' then -1 else 1) * ((hh : ℤ) * 3600 + (mm : ℤ) * 60))
            else none
    else none

/-- `Unix()` of Go's zero `time.Time` (0001-01-01T00:00:00 UTC), the
value used when `time.Parse` fails and its error is ignored. -/
def zeroTimeUnix : ℤ := -62135596800

/-- Model of `time.Parse("2006-01-02T15:04:05.999999999Z07:00", s)`
followed by `.Unix()`: Go's strict RFC3339 parse (this layout is
`time.RFC3339Nano`), with field range checks including day-in-month, and
truncation of fractional seconds by `Unix()`. -/
def goTimeParseUnix (s : String) : Option ℤ := do
  let (y, r1) ← take4 s.toList
  let r2 ← expectC r1 '-'
  let (mo, r3) ← take2 r2
  let r4 ← expectC r3 '-'
  let (d, r5) ← take2 r4
  let r6 ← expectC r5 'T'
  let (hh, r7) ← take2 r6
  let r8 ← expectC r7 ':'
  let (mi, r9) ← take2 r8
  let r10 ← expectC r9 ':'
  let (ss, r11) ← take2 r10
  if 1 ≤ mo ∧ mo ≤ 12 ∧ 1 ≤ d ∧ d ≤ daysInMonth y mo ∧ hh ≤ 23 ∧ mi ≤ 59 ∧ ss ≤ 59 then
    let r12 ← skipFrac r11
    let off ← parseOffset r12
    pure (daysFromCivil (y : ℤ) (mo : ℤ) (d : ℤ) * 86400
      + (hh : ℤ) * 3600 + (mi : ℤ) * 60 + (ss : ℤ) - off)
  else none

/-- Two's-complement wrap-around of `int64` arithmetic. -/
def wrap64 (z : ℤ) : ℤ := (z + 2 ^ 63) % 2 ^ 64 - 2 ^ 63

theorem wrap64_eq_self (z : ℤ) (h1 : -(2 ^ 63) ≤ z) (h2 : z < 2 ^ 63) : wrap64 z = z := by
  unfold wrap64
  omega

example : daysFromCivil 1970 1 1 = 0 := by decide
example : daysFromCivil 2024 1 1 = 19723 := by decide
example : daysFromCivil 1 1 1 = -719162 := by decide
example : daysFromCivil 2000 2 29 = 11016 := by decide
example : daysFromCivil 2000 3 1 = 11017 := by decide
example : goTimeParseUnix ("2024-01-01T00:00:00Z") = some 1704067200 := by decide
example : goTimeParseUnix ("2024-01-01T00:00:05.5+01:00") = some 1704063605 := by decide
example : goTimeParseUnix ("notatime") = none := by decide
example : goTimeParseUnix ("2024-02-30T00:00:00Z") = none := by decide
example : goTimeParseUnix ("1970-01-01T00:00:00Z") = some 0 := by decide

/-- `ProtocolVersion` from `exporter.go`. -/
structure ProtocolVersion where
  P2p : String
  Block : String
  App : String
deriving DecidableEq, Repr

/-- `Other` from `exporter.go`. -/
structure Other where
  TxIndex : String
  RpcAddress : String
deriving DecidableEq, Repr

/-- `PubKey` from `exporter.go` (the Go field `Type` is renamed
`TypeName`, `Type` being reserved in Lean). -/
structure PubKey where
  TypeName : String
  Value : String
deriving DecidableEq, Repr

/-- `NodeInfo` from `exporter.go`. -/
structure NodeInfo where
  ProtoVer : ProtocolVersion
  Id : String
  ListenAddr : String
  Network : String
  Version : String
  Channels : String
  Moniker : String
  InfoOther : Other
deriving DecidableEq, Repr

/-- `SyncInfo` from `exporter.go`: all JSON fields decode as strings. -/
structure SyncInfo where
  LatestBlockHash : String
  LatestAppHash : String
  LatestBlockHeight : String
  LatestBlockTime : String
  EarlestBlockHash : String
  EarlestAppHash : String
  EarlestBlockHeight : String
  EarlestBlockTime : String
  CatchingUp : Bool
deriving DecidableEq, Repr

/-- `ValidatorInfo` from `exporter.go`. -/
structure ValidatorInfo where
  Address : String
  InfoPubKey : PubKey
  VotingPower : String
deriving DecidableEq, Repr

/-- `Result` from `exporter.go`. -/
structure Result where
  MessageNodeInfo : NodeInfo
  MessageSyncInfo : SyncInfo
  MessageValidatorInfo : ValidatorInfo
deriving DecidableEq, Repr

/-- `Message` from `exporter.go`, the decoded `/status` envelope. -/
structure Message where
  Jsonrpc : String
  Id : ℤ
  MessageResult : Result
deriving DecidableEq, Repr

/-- The `Result` part of `PeersGenerated` from `exporter.go`.  The nested
per-peer connection records are decoded but never read by `Collect`, so
they are not carried in the model. -/
structure PeersResult where
  Listening : Bool
  Listeners : List String
  NPeers : String
deriving DecidableEq, Repr

/-- `PeersGenerated` from `exporter.go`, the decoded `/net_info`
envelope. -/
structure PeersGenerated where
  Jsonrpc : String
  ID : ℤ
  Result : PeersResult
deriving DecidableEq, Repr

/-- `prometheus.BuildFQName`: joins the nonempty name parts with `_`. -/
def buildFQName (ns sub nm : String) : String :=
  (if ns = "" then "" else ns ++ "_") ++ (if sub = "" then "" else sub ++ "_") ++ nm

/-- Full name of the `up` descriptor (`const namespace = "cosmos"`). -/
def upName : String := buildFQName ("cosmos") ("") ("up")

/-- Full name of the `latestBlockHeight` descriptor. -/
def latestBlockHeightName : String := buildFQName ("cosmos") ("") ("latest_block_height")

/-- Full name of the `timeDiff` descriptor. -/
def timeDiffName : String := buildFQName ("cosmos") ("") ("time_diff")

/-- Full name of the `peersNum` descriptor. -/
def peersNumName : String := buildFQName ("cosmos") ("") ("peers_num")

/-- One gauge sample as produced by `prometheus.MustNewConstMetric`:
descriptor name, label pairs, numeric value. -/
structure Sample where
  name : String
  labels : List (String × String)
  value : GoFloat
deriving DecidableEq, Repr

/-- The unlabeled `up` gauge sample. -/
def upSample (v : ℤ) : Sample := ⟨upName, [], .finite v 0⟩

/-- A gauge sample carrying the single `node="localhost"` label, as every
non-`up` metric in `Collect` does. -/
def nodeSample (nm : String) (v : GoFloat) : Sample := ⟨nm, [("node", "localhost")], v⟩

/-- Outcome of one HTTP fetch, as seen by `Exporter.Scrape`: a
transport-level failure (`http.NewRequest` or `client.Do` error), a
body-read failure (`ioutil.ReadAll` error), or a response with a status
code and a body.  The body is given in decoded form, abstracting the
external `encoding/json` collaborator. -/
inductive HTTPResult (β : Type) where
  | transportError
  | readError
  | response (statusCode : ℕ) (body : β)
deriving DecidableEq, Repr

/-- What `Exporter.Scrape` produces for its caller: the body, an error
return, or no return at all because `log.Fatal` terminated the process. -/
inductive ScrapeResult (β : Type) where
  | ok (body : β)
  | errResult
  | fatalExit
deriving DecidableEq, Repr

/-- `Exporter.Scrape`: request/transport errors are logged and returned;
a `ReadAll` failure hits `log.Fatal`; any HTTP response is returned as a
body — the status code is never inspected. -/
def Scrape {β : Type} (r : HTTPResult β) : ScrapeResult β :=
  match r with
  | .transportError => .errResult
  | .readError => .fatalExit
  | .response _ b => .ok b

/-- A `/status` body: either it fails `json.Unmarshal` into `Message`,
or it decodes to one. -/
inductive StatusBody where
  | undecodable
  | decoded (msg : Message)
deriving DecidableEq, Repr

/-- A `/net_info` body: either it fails `json.Unmarshal` into
`PeersGenerated`, or it decodes to one. -/
inductive PeersBody where
  | undecodable
  | decoded (peers : PeersGenerated)
deriving DecidableEq, Repr

/-- The tail of `Exporter.Collect` from the second `Scrape` call on: the
peers fetch, decode, and `peers_num` emission.  The boolean is true when
the Go process would have exited via `log.Fatal`. -/
def collectPeers (peersResp : HTTPResult PeersBody) : List Sample × Bool :=
  match Scrape peersResp with
  | .fatalExit => ([], true)
  | .errResult => ([], false)
  | .ok .undecodable => ([], true)
  | .ok (.decoded p) => ([nodeSample peersNumName (goParseFloat p.Result.NPeers)], false)

/-- `Exporter.Collect`: one collection cycle, as a function of the two
fetch outcomes and the current wall-clock unix time `now`
(`time.Now().Unix()`).  Returns the samples sent to the channel in
order, and whether the process exited via `log.Fatal` during the cycle.
Follows the source line by line: `up=0` and return on a status fetch
error; `up=1` emitted before decoding; `log.Fatal` on a decode error;
height via `strconv.ParseFloat` with the error discarded; block time via
`time.Parse` with the error merely logged (the zero `time.Time` is used
on failure); `diff` computed in `int64`; the formatted/reparsed `diff`
emitted; then the peers tail. -/
def Collect (statusResp : HTTPResult StatusBody) (peersResp : HTTPResult PeersBody)
    (now : ℤ) : List Sample × Bool :=
  match Scrape statusResp with
  | .fatalExit => ([], true)
  | .errResult => ([upSample 0], false)
  | .ok .undecodable => ([upSample 1], true)
  | .ok (.decoded msg) =>
    let h := goParseFloat msg.MessageResult.MessageSyncInfo.LatestBlockHeight
    let tUnix :=
      (goTimeParseUnix msg.MessageResult.MessageSyncInfo.LatestBlockTime).getD zeroTimeUnix
    let diff := wrap64 (now - tUnix)
    let tail := collectPeers peersResp
    ([upSample 1, nodeSample latestBlockHeightName h,
      nodeSample timeDiffName (f64RoundDec ⟨diff, 0⟩)] ++ tail.1, tail.2)

/-- Value of the first sample with the given descriptor name. -/
def sampleValue (nm : String) (l : List Sample) : Option GoFloat :=
  (l.find? (fun smp => smp.name == nm)).map Sample.value

/-- Drop the `time_diff` samples (the only `now`-dependent ones). -/
def eraseSkew (l : List Sample) : List Sample := l.filter (fun smp => smp.name != timeDiffName)

/-- A decoded `/status` message whose sync info carries the given height
and block-time strings (all other schema fields hold zero values). -/
def mkMsg (hS tS : String) : Message :=
  { Jsonrpc := "2.0", Id := 1,
    MessageResult :=
    { MessageNodeInfo :=
      { ProtoVer := { P2p := "", Block := "", App := "" }, Id := "", ListenAddr := "",
        Network := "", Version := "", Channels := "", Moniker := "",
        InfoOther := { TxIndex := "", RpcAddress := "" } },
      MessageSyncInfo :=
      { LatestBlockHash := "", LatestAppHash := "", LatestBlockHeight := hS,
        LatestBlockTime := tS, EarlestBlockHash := "", EarlestAppHash := "",
        EarlestBlockHeight := "", EarlestBlockTime := "", CatchingUp := false },
      MessageValidatorInfo :=
      { Address := "", InfoPubKey := { TypeName := "", Value := "" }, VotingPower := "" } } }

/-- A decoded `/net_info` message with the given `n_peers` string. -/
def mkPeers (nS : String) : PeersGenerated :=
  { Jsonrpc := "2.0", ID := 1, Result := { Listening := true, Listeners := [], NPeers := nS } }

example :
    Collect (.response 200 (.decoded (mkMsg ("12345") ("2024-01-01T00:00:00Z"))))
      (.response 200 (.decoded (mkPeers ("7")))) 1704067210
    = ([upSample 1, nodeSample latestBlockHeightName (.finite 12345 0),
        nodeSample timeDiffName (.finite 10 0),
        nodeSample peersNumName (.finite 7 0)], false) := by decide

theorem lowerC_digit (c : Char) (h : isDig c = true) : lowerC c = c := by
  simp only [isDig, Bool.and_eq_true, decide_eq_true_eq] at h
  unfold lowerC
  rw [if_neg (by omega)]

theorem digit_ne (d c : Char) (hd : isDig d = true) (hc : c.toNat < 48 ∨ 57 < c.toNat) :
    d ≠ c := by
  simp only [isDig, Bool.and_eq_true, decide_eq_true_eq] at hd
  intro hcon
  subst hcon
  omega

theorem signSplit_cases (cs : List Char) (sg : ℤ) (r : List Char)
    (h : signSplit cs = (sg, r)) : cs = r ∨ cs = '+' :: r ∨ cs = '-' :: r := by
  cases cs with
  | nil =>
    simp only [signSplit, Prod.mk.injEq] at h
    left
    rw [← h.2]
  | cons c t =>
    simp only [signSplit] at h
    split_ifs at h with h1 h2
    · rw [Prod.mk.injEq] at h
      right; left
      rw [h1, ← h.2]
    · rw [Prod.mk.injEq] at h
      right; right
      rw [h2, ← h.2]
    · rw [Prod.mk.injEq] at h
      left
      rw [← h.2]

theorem takeWhile_head (p : Char → Bool) (d : Char) (t : List Char)
    (h : (d :: t).takeWhile p = d :: t) : p d = true := by
  by_contra hcon
  simp only [List.takeWhile_cons] at h
  rw [if_neg (by simpa using hcon)] at h
  exact absurd h (by simp)

theorem specialTail_digit (neg : Bool) (d : Char) (rest : List Char) (hi : d ≠ 'i') :
    specialTail neg (d :: rest) = none := by
  unfold specialTail
  rw [if_neg]
  rintro (hcon | hcon) <;> (injection hcon with h1 _; exact hi h1)

theorem parseSpecial_digits (cs : List Char) (sg : ℤ) (d : Char) (t : List Char)
    (hsp : signSplit cs = (sg, d :: t)) (hd : isDig d = true) :
    parseSpecial cs = none := by
  have hplus : d ≠ '+' := digit_ne d '+' hd (by decide)
  have hminus : d ≠ '-' := digit_ne d '-' hd (by decide)
  have hn : d ≠ 'n' := digit_ne d 'n' hd (by decide)
  have hi : d ≠ 'i' := digit_ne d 'i' hd (by decide)
  have hld : lowerC d = d := lowerC_digit d hd
  rcases signSplit_cases cs sg (d :: t) hsp with hc | hc | hc <;> subst hc
  · simp only [parseSpecial, List.map_cons, hld]
    rw [if_neg (by intro hcon; injection hcon with h1 _; exact hn h1)]
    rw [if_neg hplus, if_neg hminus]
    exact specialTail_digit false d _ hi
  · simp only [parseSpecial, List.map_cons, hld]
    rw [show lowerC '+' = '+' from rfl]
    rw [if_neg (by intro hcon; injection hcon with h1 _; exact absurd h1 (by decide))]
    rw [if_pos rfl]
    exact specialTail_digit false d _ hi
  · simp only [parseSpecial, List.map_cons, hld]
    rw [show lowerC '-' = '-' from rfl]
    rw [if_neg (by intro hcon; injection hcon with h1 _; exact absurd h1 (by decide))]
    rw [if_neg (by decide), if_pos rfl]
    exact specialTail_digit true d _ hi

theorem goParseFloatOpt_decInt (s : String) (n : ℤ) (h : decIntValue s = some n) :
    goParseFloatOpt s = some (f64RoundDec ⟨n, 0⟩) := by
  rcases hsp : signSplit s.toList with ⟨sg, cs1⟩
  simp only [decIntValue, hsp] at h
  split_ifs at h with hcond
  push_neg at hcond
  have hval : sg * ((natOfDigits (cs1.takeWhile isDig) : ℕ) : ℤ) = n := by
    injection h
  have hcs1 : cs1.takeWhile isDig = cs1 := by
    have happ := List.takeWhile_append_dropWhile (p := isDig) (l := cs1)
    rw [hcond.2, List.append_nil] at happ
    exact happ
  rcases hne : cs1 with _ | ⟨d, t⟩
  · rw [hne] at hcs1 hcond
    exact absurd (by simp) hcond.1
  · rw [hne] at hcs1 hcond hsp hval
    have hd : isDig d = true := takeWhile_head isDig d t hcs1
    have hps := parseSpecial_digits s.toList sg d t hsp hd
    simp only [goParseFloatOpt, hps]
    have hpd : parseDecSyntax s.toList = some ⟨n, 0⟩ := by
      simp only [parseDecSyntax, hsp, hcs1, hcond.2]
      rw [if_neg (by simp)]
      rw [hcs1] at hval
      simp only [natOfDigits, List.foldl_nil, List.length_nil, pow_zero, mul_one,
        Nat.add_zero, Nat.cast_id, neg_zero, Nat.cast_zero]
      exact congrArg some (by rw [← hval]; rfl)
    rw [hpd]
    rfl

theorem goParseFloat_decInt_repr (s : String) (n : ℤ) (h : decIntValue s = some n)
    (hr : ReprInt n) : goParseFloat s = .finite n 0 := by
  unfold goParseFloat
  rw [goParseFloatOpt_decInt s n h]
  rw [f64RoundDec_int n hr]
  rfl

theorem Collect_decoded (msg : Message) (pR : HTTPResult PeersBody) (now : ℤ) (code : ℕ) :
    Collect (.response code (.decoded msg)) pR now
      = ([upSample 1,
          nodeSample latestBlockHeightName
            (goParseFloat msg.MessageResult.MessageSyncInfo.LatestBlockHeight),
          nodeSample timeDiffName
            (f64RoundDec ⟨wrap64 (now -
              (goTimeParseUnix msg.MessageResult.MessageSyncInfo.LatestBlockTime).getD
                zeroTimeUnix), 0⟩)]
          ++ (collectPeers pR).1, (collectPeers pR).2) := rfl

theorem Collect_decoded_fst (msg : Message) (pR : HTTPResult PeersBody) (now : ℤ)
    (code : ℕ) :
    (Collect (.response code (.decoded msg)) pR now).1
      = [upSample 1,
         nodeSample latestBlockHeightName
           (goParseFloat msg.MessageResult.MessageSyncInfo.LatestBlockHeight),
         nodeSample timeDiffName
           (f64RoundDec ⟨wrap64 (now -
             (goTimeParseUnix msg.MessageResult.MessageSyncInfo.LatestBlockTime).getD
               zeroTimeUnix), 0⟩)]
          ++ (collectPeers pR).1 := rfl

theorem Collect_decoded_snd (msg : Message) (pR : HTTPResult PeersBody) (now : ℤ)
    (code : ℕ) :
    (Collect (.response code (.decoded msg)) pR now).2 = (collectPeers pR).2 := rfl

theorem sampleValue_skew (h v : GoFloat) (rest : List Sample) :
    sampleValue timeDiffName
      ([upSample 1, nodeSample latestBlockHeightName h, nodeSample timeDiffName v] ++ rest)
      = some v := rfl

theorem sampleValue_height (h v : GoFloat) (rest : List Sample) :
    sampleValue latestBlockHeightName
      ([upSample 1, nodeSample latestBlockHeightName h, nodeSample timeDiffName v] ++ rest)
      = some h := rfl

theorem sampleValue_peers (h v pv : GoFloat) :
    sampleValue peersNumName
      ([upSample 1, nodeSample latestBlockHeightName h, nodeSample timeDiffName v]
        ++ [nodeSample peersNumName pv]) = some pv := rfl

theorem eraseSkew_head (h v : GoFloat) (rest : List Sample) :
    eraseSkew
      ([upSample 1, nodeSample latestBlockHeightName h, nodeSample timeDiffName v] ++ rest)
      = [upSample 1, nodeSample latestBlockHeightName h] ++ eraseSkew rest := rfl

/-- Claim C1, as stated, is false at this input: a transport-level
success (HTTP 200) whose body does not decode makes `Collect` emit
`up=1` (not a single `up=0` sample) and then terminates the process via
`log.Fatal` (so the cycle does not simply return). -/
theorem c1_counterexample :
    ¬ ((Collect (.response 200 .undecodable) .transportError 0).1 = [upSample 0]
      ∧ (Collect (.response 200 .undecodable) .transportError 0).2 = false) := by
  decide

/-- Claim C1, amended.  For a status fetch that fails at transport
level, `Collect` produces exactly one sample, `up=0`, emits no height,
skew or peer-count samples, and returns.  For a status fetch that
succeeds at transport level but returns a non-decodable body, however,
`Collect` first emits `up=1` and then the process exits via
`log.Fatal`. -/
theorem c1_amended : ∀ (pR : HTTPResult PeersBody) (now : ℤ) (code : ℕ),
    Collect .transportError pR now = ([upSample 0], false)
      ∧ Collect (.response code .undecodable) pR now = ([upSample 1], true) :=
  fun _ _ _ => ⟨rfl, rfl⟩

/-- Claim C2, as stated, is false at this input: on an HTTP 500 response
with a non-decodable body, `Collect` does not emit a single `up=0`
sample (it emits `up=1`), and the process exits. -/
theorem c2_counterexample :
    ¬ ((Collect (.response 500 .undecodable) .transportError 0).1 = [upSample 0]
      ∧ (Collect (.response 500 .undecodable) .transportError 0).2 = false) := by
  decide

/-- Claim C2, amended.  `Scrape` never inspects the HTTP status code, so
an HTTP 500 response is treated exactly like a success: the first sample
of the cycle is `up=1`; and if the 500 body does not decode as the
status schema, the process exits via `log.Fatal`. -/
theorem c2_amended : ∀ (b : StatusBody) (pR : HTTPResult PeersBody) (now : ℤ),
    (Collect (.response 500 b) pR now).1.head? = some (upSample 1)
      ∧ (b = .undecodable → (Collect (.response 500 b) pR now).2 = true) := by
  intro b pR now
  cases b with
  | undecodable => exact ⟨rfl, fun _ => rfl⟩
  | decoded msg => exact ⟨rfl, fun hcon => nomatch hcon⟩

/-- Witness for the amended claim C2 at a concrete input. -/
theorem c2_witness :
    (Collect (.response 500 .undecodable) .transportError 0).1.head? = some (upSample 1)
      ∧ (Collect (.response 500 .undecodable) .transportError 0).2 = true :=
  ⟨(c2_amended .undecodable .transportError 0).1,
    (c2_amended .undecodable .transportError 0).2 rfl⟩

/-- Claim C4: when the status fetch succeeds and decodes but the peers
fetch fails at transport level, the cycle emits exactly `up=1`, the
height sample and the skew sample, omits the peer-count sample, and
returns normally. -/
theorem c4_peers_transport_error : ∀ (msg : Message) (now : ℤ) (code : ℕ),
    ∃ hv sv, Collect (.response code (.decoded msg)) .transportError now
      = ([upSample 1, nodeSample latestBlockHeightName hv, nodeSample timeDiffName sv],
         false) :=
  fun _ _ _ => ⟨_, _, rfl⟩

/-- Claim C9: in every cycle, a sample named `cosmos_up` carries no
labels, and every other sample carries exactly the one label
`node="localhost"`. -/
theorem c9_labels : ∀ (sR : HTTPResult StatusBody) (pR : HTTPResult PeersBody) (now : ℤ),
    ((Collect sR pR now).1.all fun smp =>
      if smp.name == upName then smp.labels == ([] : List (String × String))
      else smp.labels == [("node", "localhost")]) = true := by
  intro sR pR now
  cases sR with
  | transportError => rfl
  | readError => rfl
  | response code b =>
    cases b with
    | undecodable => rfl
    | decoded msg =>
      cases pR with
      | transportError => rfl
      | readError => rfl
      | response code2 pb =>
        cases pb with
        | undecodable => rfl
        | decoded prs => rfl

/-- Claim C10: whenever a cycle contains a peer-count sample, the cycle
is exactly `up=1`, height, skew, peer-count in that order — so the three
other samples were all emitted, before it, and the status fetch
succeeded. -/
theorem c10_peers_implies_full_cycle :
    ∀ (sR : HTTPResult StatusBody) (pR : HTTPResult PeersBody) (now : ℤ),
    ((Collect sR pR now).1.any fun smp => smp.name == peersNumName) = true →
    ∃ hv sv pv, (Collect sR pR now).1
      = [upSample 1, nodeSample latestBlockHeightName hv, nodeSample timeDiffName sv,
         nodeSample peersNumName pv] := by
  intro sR pR now h
  cases sR with
  | transportError => exact absurd h Bool.false_ne_true
  | readError => exact absurd h Bool.false_ne_true
  | response code b =>
    cases b with
    | undecodable => exact absurd h Bool.false_ne_true
    | decoded msg =>
      cases pR with
      | transportError => exact absurd h Bool.false_ne_true
      | readError => exact absurd h Bool.false_ne_true
      | response code2 pb =>
        cases pb with
        | undecodable => exact absurd h Bool.false_ne_true
        | decoded prs => exact ⟨_, _, _, rfl⟩

/-- Witness for claim C10 at a concrete input with a peer-count sample. -/
theorem c10_witness :
    ((Collect (.response 200 (.decoded (mkMsg ("12345") ("2024-01-01T00:00:00Z"))))
        (.response 200 (.decoded (mkPeers ("7")))) 1704067210).1.any
      fun smp => smp.name == peersNumName) = true
    ∧ ∃ hv sv pv,
      (Collect (.response 200 (.decoded (mkMsg ("12345") ("2024-01-01T00:00:00Z"))))
        (.response 200 (.decoded (mkPeers ("7")))) 1704067210).1
      = [upSample 1, nodeSample latestBlockHeightName hv, nodeSample timeDiffName sv,
         nodeSample peersNumName pv] :=
  ⟨by decide,
    c10_peers_implies_full_cycle
      (.response 200 (.decoded (mkMsg ("12345") ("2024-01-01T00:00:00Z"))))
      (.response 200 (.decoded (mkPeers ("7")))) 1704067210 (by decide)⟩

theorem skew_sample_eq (msg : Message) (pR : HTTPResult PeersBody) (now u : ℤ) (code : ℕ)
    (hp : goTimeParseUnix msg.MessageResult.MessageSyncInfo.LatestBlockTime = some u)
    (hb : |now - u| ≤ 2 ^ 53) :
    sampleValue timeDiffName (Collect (.response code (.decoded msg)) pR now).1
      = some (.finite (now - u) 0) := by
  rw [Collect_decoded_fst, sampleValue_skew, hp]
  have hw : wrap64 (now - u) = now - u := by
    rw [abs_le] at hb
    exact wrap64_eq_self _ (by omega) (by omega)
  have hrep : ReprInt (now - u) :=
    ⟨now - u, 0, hb, by ring, lt_of_le_of_lt hb (by norm_num)⟩
  rw [show (some u).getD zeroTimeUnix = u from rfl, hw, f64RoundDec_int _ hrep]

/-- Claim C3, as stated, is false at this input: with an unparsable
`latest_block_time`, the skew sample is not omitted — it is emitted,
with the value derived from Go's zero time. -/
theorem c3_counterexample :
    sampleValue timeDiffName
      (Collect (.response 200 (.decoded (mkMsg ("100") ("notatime")))) .transportError 5).1
      = some (.finite 62135596805 0) := by
  decide

/-- Claim C3, amended.  When `latest_block_time` fails to parse, the
collector logs the error but still emits the skew sample — computed
against the zero `time.Time` (unix −62135596800) — and the cycle
continues unchanged into the peers fetch. -/
theorem c3_amended : ∀ (msg : Message) (pR : HTTPResult PeersBody) (now : ℤ) (code : ℕ),
    goTimeParseUnix msg.MessageResult.MessageSyncInfo.LatestBlockTime = none →
    Collect (.response code (.decoded msg)) pR now
      = ([upSample 1,
          nodeSample latestBlockHeightName
            (goParseFloat msg.MessageResult.MessageSyncInfo.LatestBlockHeight),
          nodeSample timeDiffName (f64RoundDec ⟨wrap64 (now - zeroTimeUnix), 0⟩)]
          ++ (collectPeers pR).1, (collectPeers pR).2) := by
  intro msg pR now code hp
  rw [Collect_decoded, hp]
  rfl

/-- Witness for the amended claim C3 at a concrete input. -/
theorem c3_witness :
    goTimeParseUnix (mkMsg ("100") ("notatime")).MessageResult.MessageSyncInfo.LatestBlockTime
      = none
    ∧ Collect (.response 200 (.decoded (mkMsg ("100") ("notatime"))))
        (.response 200 (.decoded (mkPeers ("7")))) 5
      = ([upSample 1,
          nodeSample latestBlockHeightName
            (goParseFloat
              (mkMsg ("100") ("notatime")).MessageResult.MessageSyncInfo.LatestBlockHeight),
          nodeSample timeDiffName (f64RoundDec ⟨wrap64 (5 - zeroTimeUnix), 0⟩)]
          ++ (collectPeers (.response 200 (.decoded (mkPeers ("7"))))).1,
         (collectPeers (.response 200 (.decoded (mkPeers ("7"))))).2) :=
  ⟨by decide,
    c3_amended (mkMsg ("100") ("notatime")) (.response 200 (.decoded (mkPeers ("7")))) 5 200
      (by decide)⟩

/-- Claim C5: when `latest_block_time` parses to a timestamp with unix
seconds `u` and the difference to the current wall-clock unix time fits
exactly in a `float64` (as every physical clock reading does), the
emitted skew sample is exactly `now − u`; the quantification covers
timestamps with and without fractional seconds and with arbitrary UTC
offsets, as the witness instantiations demonstrate. -/
theorem c5_skew (msg : Message) (pR : HTTPResult PeersBody) (now u : ℤ) (code : ℕ)
    (hp : goTimeParseUnix msg.MessageResult.MessageSyncInfo.LatestBlockTime = some u)
    (hb : |now - u| ≤ 2 ^ 53) :
    sampleValue timeDiffName (Collect (.response code (.decoded msg)) pR now).1
      = some (.finite (now - u) 0) :=
  skew_sample_eq msg pR now u code hp hb

/-- Witness for claim C5: the spec's own scenario (whole-second UTC
timestamp, skew 10), and a fractional-second timestamp with a `+01:00`
offset. -/
theorem c5_witness :
    sampleValue timeDiffName
      (Collect (.response 200 (.decoded (mkMsg ("12345") ("2024-01-01T00:00:00Z"))))
        .transportError 1704067210).1 = some (.finite (1704067210 - 1704067200) 0)
    ∧ sampleValue timeDiffName
      (Collect (.response 200 (.decoded (mkMsg ("1") ("2024-01-01T00:00:05.5+01:00"))))
        .transportError 1704067210).1 = some (.finite (1704067210 - 1704063605) 0) :=
  ⟨c5_skew (mkMsg ("12345") ("2024-01-01T00:00:00Z")) .transportError 1704067210 1704067200
      200 (by decide) (by decide),
    c5_skew (mkMsg ("1") ("2024-01-01T00:00:05.5+01:00")) .transportError 1704067210
      1704063605 200 (by decide) (by decide)⟩

/-- Claim C6: when `latest_block_height` is a decimal integer numeral
whose value is exactly representable in a `float64`, the emitted height
sample equals that integer exactly. -/
theorem c6_height_exact (msg : Message) (pR : HTTPResult PeersBody) (now : ℤ) (code : ℕ)
    (n : ℤ)
    (hdec : decIntValue msg.MessageResult.MessageSyncInfo.LatestBlockHeight = some n)
    (hrep : ReprInt n) :
    sampleValue latestBlockHeightName (Collect (.response code (.decoded msg)) pR now).1
      = some (.finite n 0) := by
  rw [Collect_decoded_fst, sampleValue_height,
    goParseFloat_decInt_repr _ _ hdec hrep]

/-- Witness for claim C6 at height string `12345`. -/
theorem c6_witness :
    decIntValue ("12345") = some 12345 ∧ ReprInt 12345
    ∧ sampleValue latestBlockHeightName
      (Collect (.response 200 (.decoded (mkMsg ("12345") ("2024-01-01T00:00:00Z"))))
        .transportError 0).1 = some (.finite 12345 0) :=
  ⟨by decide,
    ⟨12345, 0, by decide, by decide,
      by rw [show |(12345 : ℤ)| = 12345 from by decide]; norm_num⟩,
    c6_height_exact (mkMsg ("12345") ("2024-01-01T00:00:00Z")) .transportError 0 200 12345
      (by decide)
      ⟨12345, 0, by decide, by decide,
        by rw [show |(12345 : ℤ)| = 12345 from by decide]; norm_num⟩⟩

/-- Claim C7: a height or peer-count string rejected by the
`strconv.ParseFloat` scan is silently coerced to `0` — the corresponding
gauge is still emitted, with value zero, and the cycle does not fail. -/
theorem c7_unparsable_zero :
    ∀ (msg : Message) (prs : PeersGenerated) (pR : HTTPResult PeersBody) (now : ℤ)
      (code code2 : ℕ),
    (goParseFloatOpt msg.MessageResult.MessageSyncInfo.LatestBlockHeight = none →
      sampleValue latestBlockHeightName (Collect (.response code (.decoded msg)) pR now).1
        = some (.finite 0 0))
    ∧ (goParseFloatOpt prs.Result.NPeers = none →
      sampleValue peersNumName
        (Collect (.response code (.decoded msg)) (.response code2 (.decoded prs)) now).1
        = some (.finite 0 0)) := by
  intro msg prs pR now code code2
  constructor
  · intro hnone
    rw [Collect_decoded_fst, sampleValue_height]
    unfold goParseFloat
    rw [hnone]
    rfl
  · intro hnone
    rw [Collect_decoded_fst]
    rw [show (collectPeers (.response code2 (.decoded prs))).1
        = [nodeSample peersNumName (goParseFloat prs.Result.NPeers)] from rfl]
    rw [sampleValue_peers]
    unfold goParseFloat
    rw [hnone]
    rfl

/-- Witness for claim C7 at the unparsable strings `abc` and `xx`. -/
theorem c7_witness :
    goParseFloatOpt ("abc") = none
    ∧ sampleValue latestBlockHeightName
      (Collect (.response 200 (.decoded (mkMsg ("abc") ("x")))) .transportError 0).1
      = some (.finite 0 0)
    ∧ goParseFloatOpt ("xx") = none
    ∧ sampleValue peersNumName
      (Collect (.response 200 (.decoded (mkMsg ("abc") ("x"))))
        (.response 200 (.decoded (mkPeers ("xx")))) 0).1 = some (.finite 0 0) :=
  ⟨by decide,
    (c7_unparsable_zero (mkMsg ("abc") ("x")) (mkPeers ("xx")) .transportError 0 200 200).1
      (by decide),
    by decide,
    (c7_unparsable_zero (mkMsg ("abc") ("x")) (mkPeers ("xx")) .transportError 0 200 200).2
      (by decide)⟩

/-- Claim C8: two cycles against the same fixed fetch outcomes yield
identical sample lists apart from the skew sample's value (and the same
exit behaviour); and when the wall clock does not move backwards between
the cycles while the block time is fixed and parses, the second skew
value is at least the first. -/
theorem c8_idempotent :
    ∀ (sR : HTTPResult StatusBody) (pR : HTTPResult PeersBody) (n1 n2 : ℤ),
    eraseSkew (Collect sR pR n1).1 = eraseSkew (Collect sR pR n2).1
    ∧ (Collect sR pR n1).2 = (Collect sR pR n2).2
    ∧ (∀ (msg : Message) (code : ℕ) (u : ℤ), n1 ≤ n2 →
        sR = .response code (.decoded msg) →
        goTimeParseUnix msg.MessageResult.MessageSyncInfo.LatestBlockTime = some u →
        |n1 - u| ≤ 2 ^ 53 → |n2 - u| ≤ 2 ^ 53 →
        ∃ z1 z2 : ℤ,
          sampleValue timeDiffName (Collect sR pR n1).1 = some (.finite z1 0)
          ∧ sampleValue timeDiffName (Collect sR pR n2).1 = some (.finite z2 0)
          ∧ z1 ≤ z2) := by
  intro sR pR n1 n2
  refine ⟨?_, ?_, ?_⟩
  · cases sR with
    | transportError => rfl
    | readError => rfl
    | response code b =>
      cases b with
      | undecodable => rfl
      | decoded msg =>
        rw [Collect_decoded_fst, Collect_decoded_fst, eraseSkew_head, eraseSkew_head]
  · cases sR with
    | transportError => rfl
    | readError => rfl
    | response code b =>
      cases b with
      | undecodable => rfl
      | decoded msg => rfl
  · intro msg code u hle hsr hp hb1 hb2
    subst hsr
    exact ⟨n1 - u, n2 - u, skew_sample_eq msg pR n1 u code hp hb1,
      skew_sample_eq msg pR n2 u code hp hb2, by omega⟩

/-- Witness for claim C8 at a concrete pair of cycles ten seconds
apart. -/
theorem c8_witness :
    eraseSkew
      (Collect (.response 200 (.decoded (mkMsg ("12345") ("2024-01-01T00:00:00Z"))))
        (.response 200 (.decoded (mkPeers ("7")))) 1704067210).1
      = eraseSkew
      (Collect (.response 200 (.decoded (mkMsg ("12345") ("2024-01-01T00:00:00Z"))))
        (.response 200 (.decoded (mkPeers ("7")))) 1704067220).1
    ∧ ∃ z1 z2 : ℤ,
        sampleValue timeDiffName
          (Collect (.response 200 (.decoded (mkMsg ("12345") ("2024-01-01T00:00:00Z"))))
            (.response 200 (.decoded (mkPeers ("7")))) 1704067210).1
          = some (.finite z1 0)
        ∧ sampleValue timeDiffName
          (Collect (.response 200 (.decoded (mkMsg ("12345") ("2024-01-01T00:00:00Z"))))
            (.response 200 (.decoded (mkPeers ("7")))) 1704067220).1
          = some (.finite z2 0)
        ∧ z1 ≤ z2 :=
  ⟨(c8_idempotent (.response 200 (.decoded (mkMsg ("12345") ("2024-01-01T00:00:00Z"))))
      (.response 200 (.decoded (mkPeers ("7")))) 1704067210 1704067220).1,
    (c8_idempotent (.response 200 (.decoded (mkMsg ("12345") ("2024-01-01T00:00:00Z"))))
      (.response 200 (.decoded (mkPeers ("7")))) 1704067210 1704067220).2.2
      (mkMsg ("12345") ("2024-01-01T00:00:00Z")) 200 1704067200 (by decide) rfl
      (by decide) (by decide) (by decide)⟩
